import Mathlib

/-!
Verification of the peer-to-peer mesh socket of `gappleto97/p2p-project`.

The development shallowly embeds two source files:

* `py_src/base.py` (namespace `Base`): the wire codec — byte packing,
  base-58 encoding, compression negotiation, `InternalMessage` framing and
  parsing.  Byte strings are modelled as `List Nat`; Python `str`/`bytes`
  are identified with byte sequences (the Python 2 branch of the source),
  except where the distinction is itself under study
  (`pack_value_py3`, which tracks the Python 3 `str`/`bytes` tags).
* `p2p.py` (namespace `P2P`): the mesh socket — waterfall flood broadcast
  with its seen set, the request handler, connect/disconnect, and `recv`.
  Wire payloads there are Python strings, modelled as Lean `String`.

External collaborators that are not part of the repository sources are
modelled as explicit parameters: the SHA-384 digest is an abstract function
`H` (the code only ever uses it as a deterministic map from the hashed
string to an integer), compression codecs are a `CompressionScheme` record
of encode/decode functions, and the JSON codec for peer lists is part of
the `P2P.Ext` record.
-/

set_option maxHeartbeats 1000000

namespace Base

/-- The body of `pack_value`'s `for x in range(length)` loop: prepend the
low byte of `i`, shift `i` right by 8 bits, and stop early once `i = 0`.
Returns the accumulated byte string together with the remaining value of
`i` (nonzero exactly when the source raises `ValueError`). -/
def pack_loop : Nat → Nat → List Nat → List Nat × Nat
  | 0, i, acc => (acc, i)
  | fuel + 1, i, acc =>
    let acc' := (i % 256) :: acc
    let i' := i / 256
    if i' = 0 then (acc', 0) else pack_loop fuel i' acc'

/-- `base.pack_value(length, i)`: big-endian fixed-width byte encoding,
zero-padded on the left.  `none` models the `ValueError` raised when the
value does not fit.  The left padding is the byte `0` — the Python 2
branch of the source; the Python 3 typing slip in this very line is
modelled separately by `pack_value_py3`. -/
def pack_value (length i : Nat) : Option (List Nat) :=
  let r := pack_loop length i []
  if r.2 ≠ 0 then none
  else some (List.replicate (length - r.1.length) 0 ++ r.1)

/-- `base.unpack_value(string)`: big-endian unsigned interpretation. -/
def unpack_value (s : List Nat) : Nat :=
  s.foldl (fun v c => v * 256 + c) 0

/-- A Python 3 value that is either a `str` or a `bytes` object. -/
inductive PyVal
  | pystr (s : List Nat)
  | pybytes (b : List Nat)
deriving DecidableEq

/-- The exceptions `pack_value` can raise under Python 3. -/
inductive PyErr
  | typeError
  | valueError
deriving DecidableEq

/-- Python 3 concatenation: `str + str` and `bytes + bytes` concatenate,
mixing the two raises `TypeError`. -/
def pyConcat : PyVal → PyVal → Except PyErr PyVal
  | .pystr a, .pystr b => .ok (.pystr (a ++ b))
  | .pybytes a, .pybytes b => .ok (.pybytes (a ++ b))
  | _, _ => .error .typeError

/-- `base.pack_value` under Python 3 semantics, tracking the `str`/`bytes`
distinction: the loop accumulates a `bytes` object (`bytes([i & 0xFF])`),
but the final left padding is the `str` literal `"\x00" * (length - len(ret))`,
so the concluding concatenation is `str + bytes`. -/
def pack_value_py3 (length i : Nat) : Except PyErr PyVal :=
  let r := pack_loop length i []
  if r.2 ≠ 0 then .error .valueError
  else pyConcat (.pystr (List.replicate (length - r.1.length) 0)) (.pybytes r.1)

/-- The base-58 alphabet of `base.py`, as byte values. -/
def base58_chars : List Nat :=
  "123456789ABCDEFGHJKLMNPQRSTUVWXYZabcdefghijkmnopqrstuvwxyz".toList.map Char.toNat

/-- The `while i:` loop of `base.to_base_58`, with explicit fuel so the
recursion is structural (`i` itself is always enough fuel, see
`to_base_58_core`): most significant digit first, empty for `i = 0`. -/
def to_base_58_go : Nat → Nat → List Nat
  | 0, _ => []
  | fuel + 1, i =>
    if i = 0 then []
    else to_base_58_go fuel (i / 58) ++ [base58_chars.getD (i % 58) 0]

/-- The digit list of `base.to_base_58(i)`, empty for `i = 0`. -/
def to_base_58_core (i : Nat) : List Nat :=
  to_base_58_go i i

/-- `base.to_base_58(i)`: base-58 digits of `i`, with `"1"` (the zero
digit) produced for `i = 0`. -/
def to_base_58 (i : Nat) : List Nat :=
  let s := to_base_58_core i
  if s = [] then [base58_chars.getD 0 0] else s

/-- `base.from_base_58(string)`: positional base-58 value, each digit
resolved by its index in the alphabet. -/
def from_base_58 (b : List Nat) : Nat :=
  b.foldl (fun d c => d * 58 + base58_chars.indexOf c) 0

/-- Modelled from the spec: `utils.intersect` (the file `py_src/utils.py`
is not in the sources) — per §4.1, compression selection uses "the first
method appearing in both" lists, so `intersect a b` keeps the elements of
`a` that also occur in `b`, in the order of `a`. -/
def intersect (a b : List Nat) : List Nat :=
  a.filter (fun x => b.contains x)

/-- The compression collaborators of `base.py` (`zlib`/`bz2`/`lzma` are
external to the repository): the module-scope `compression` preference
list, and per-method encode/decode, with `none` modelling the exception a
failed decompression raises. -/
structure CompressionScheme where
  methods : List Nat
  comp : Nat → List Nat → List Nat
  decomp : Nat → List Nat → Option (List Nat)

/-- `base.InternalMessage`: message type, sender id, payload packets,
negotiated compression methods and timestamp.  `compression_fail` is the
attribute set by `feed_string`. -/
structure InternalMessage where
  msg_type : List Nat
  sender : List Nat
  payload : List (List Nat)
  compression : List Nat
  time : Nat
  compression_fail : Bool
deriving DecidableEq

/-- `InternalMessage.time_58`: the timestamp in base 58. -/
def InternalMessage.time_58 (m : InternalMessage) : List Nat :=
  to_base_58 m.time

/-- `InternalMessage.id`: base-58 of the SHA-384 digest (abstracted as
`H`) of the concatenated payload packets followed by `time_58`. -/
def InternalMessage.id (H : List Nat → Nat) (m : InternalMessage) : List Nat :=
  to_base_58 (H (m.payload.flatten ++ m.time_58))

/-- `InternalMessage.packets`: `[msg_type, sender, id, time_58] + payload`. -/
def InternalMessage.packets (H : List Nat → Nat) (m : InternalMessage) : List (List Nat) :=
  [m.msg_type, m.sender, m.id H, m.time_58] ++ m.payload

/-- `InternalMessage.compression_used`: the first module-supported method
also advertised by this message. -/
def InternalMessage.compression_used (scheme : CompressionScheme)
    (m : InternalMessage) : Option Nat :=
  (intersect scheme.methods m.compression).head?

/-- `InternalMessage.__non_len_string`: each packet prefixed with its
4-byte length header, concatenated, and compressed when a method is
negotiated.  `none` models the `ValueError` of an oversized header. -/
def InternalMessage.non_len_string (H : List Nat → Nat) (scheme : CompressionScheme)
    (m : InternalMessage) : Option (List Nat) :=
  ((m.packets H).mapM fun p => (pack_value 4 p.length).map (· ++ p)).map fun withHeads =>
    let s := withHeads.flatten
    match m.compression_used scheme with
    | some mth => scheme.comp mth s
    | none => s

/-- `InternalMessage.string`: the framed wire form, a 4-byte total length
header followed by the (possibly compressed) body. -/
def InternalMessage.string (H : List Nat → Nat) (scheme : CompressionScheme)
    (m : InternalMessage) : Option (List Nat) :=
  (m.non_len_string H scheme).bind fun s =>
    (pack_value 4 s.length).map (· ++ s)

/-- The decode-side failures of `feed_string`: the size-header
`AssertionError`, the `IndexError` of a short packet list, the
`ValueError` that `base_58.index` raises when the time packet holds a
character outside the alphabet (a `UnicodeDecodeError` on non-ASCII
bytes lands in the same bucket: such bytes are not in the alphabet
either), and the checksum `AssertionError`. -/
inductive FrameErr
  | sizeMismatch
  | indexError
  | badDigit
  | checksumFailed
deriving DecidableEq

/-- `InternalMessage.__sanitize_string`: unless `sizeless`, check that the
leading 4-byte header equals the length of the remainder and strip it. -/
def sanitize_string (s : List Nat) (sizeless : Bool) : Except FrameErr (List Nat) :=
  if sizeless then .ok s
  else if unpack_value (s.take 4) = (s.drop 4).length then .ok (s.drop 4)
  else .error .sizeMismatch

/-- The `for method in intersect(compressions, compression)` loop of
`__decompress_string`: try each method; a failure sets the fail flag and
continues with the string unchanged, a success clears it and stops. -/
def decompress_loop (scheme : CompressionScheme) :
    List Nat → List Nat → Bool → List Nat × Bool
  | [], s, fail => (s, fail)
  | mth :: rest, s, fail =>
    match scheme.decomp mth s with
    | some s' => (s', false)
    | none => decompress_loop scheme rest s true

/-- `InternalMessage.__decompress_string`. -/
def decompress_string (scheme : CompressionScheme) (comps s : List Nat) :
    List Nat × Bool :=
  decompress_loop scheme (intersect comps scheme.methods) s false

/-- The `while processed < len(string)` loop of
`InternalMessage.__process_string`, with explicit fuel so the recursion is
structural (the length of the string is always enough fuel, see
`process_string`): read a 4-byte length prefix, slice off that many bytes
as the next packet, repeat. -/
def process_go : Nat → List Nat → List (List Nat)
  | 0, _ => []
  | fuel + 1, s =>
    if s = [] then []
    else
      let pack_len := unpack_value (s.take 4)
      ((s.drop 4).take pack_len) :: process_go fuel ((s.drop 4).drop pack_len)

/-- `InternalMessage.__process_string`: split a plaintext body into its
packets using the 4-byte per-packet length prefixes. -/
def process_string (s : List Nat) : List (List Nat) :=
  process_go s.length s

/-- `InternalMessage.feed_string(string, sizeless, compressions)`: strip
the size header, attempt decompression, split into packets, rebuild the
message and verify the embedded id against its recomputation.  A packet
list too short for the indices `[0]`, `[1]`, `[3]` used by the source is
an `IndexError`; a time packet with bytes outside the base-58 alphabet
makes `from_base_58` (that is, `base_58.index`) raise before the checksum
assert. -/
def feed_string (H : List Nat → Nat) (scheme : CompressionScheme)
    (string : List Nat) (sizeless : Bool) (comps : List Nat) :
    Except FrameErr InternalMessage :=
  match sanitize_string string sizeless with
  | .error e => .error e
  | .ok s1 =>
    let dec := decompress_string scheme comps s1
    let packets := process_string dec.1
    if 4 ≤ packets.length then
      if (packets.getD 3 []).all (fun c => base58_chars.contains c) then
        let msg : InternalMessage :=
          { msg_type := packets.getD 0 []
            sender := packets.getD 1 []
            payload := packets.drop 4
            compression := comps
            time := from_base_58 (packets.getD 3 [])
            compression_fail := dec.2 }
        if packets.getD 2 [] = msg.id H then .ok msg
        else .error .checksumFailed
      else .error .badDigit
    else .error .indexError

/-- A concrete compression scheme used to evaluate the codec on closed
inputs: method `mth` prepends the tag byte `mth`, decoding checks and
strips it (so decoding with the wrong method fails, as with the real
codecs). -/
def tagScheme : CompressionScheme where
  methods := [16, 17]
  comp := fun mth s => mth :: s
  decomp := fun mth s =>
    match s with
    | [] => none
    | x :: r => if x = mth then some r else none

/-- A concrete stand-in digest for evaluating the codec on closed
inputs. -/
def lenHash : List Nat → Nat := fun l => l.length

/-- A sample message for evaluating the codec on closed inputs. -/
def sampleMessage : InternalMessage :=
  ⟨[2], [65], [[10, 20]], [16], 7, false⟩

end Base

namespace P2P

/-- `p2p.sep_sequence`: the packet separator inside a wire message. -/
def sep_sequence : String := "\x1c\x1d\x1e\x1f"

/-- `p2p.max_outgoing`. -/
def max_outgoing : Nat := 8

/-- The base-58 alphabet of `p2p.py`. -/
def base58 : List Char :=
  "123456789ABCDEFGHJKLMNPQRSTUVWXYZabcdefghijkmnopqrstuvwxyz".toList

/-- The `while i:` loop of `p2p.to_base_58`, with explicit fuel so the
recursion is structural (`i` itself is always enough fuel). -/
def to_base_58_go : Nat → Nat → List Char
  | 0, _ => []
  | fuel + 1, i =>
    if i = 0 then []
    else to_base_58_go fuel (i / 58) ++ [base58.getD (i % 58) ' ']

/-- The digit list of `p2p.to_base_58`: empty for `i = 0`, unlike the
`base.py` variant. -/
def to_base_58_list (i : Nat) : List Char :=
  to_base_58_go i i

/-- `p2p.to_base_58(i)`: returns `""` for `i = 0`. -/
def to_base_58 (i : Nat) : String :=
  String.mk (to_base_58_list i)

/-- `p2p.from_base_58(string)`. -/
def from_base_58 (s : String) : Nat :=
  s.toList.foldl (fun d c => d * 58 + base58.indexOf c) 0

/-- `p2p.message` (the parts the socket logic reads): the joined payload
packets `msg`, the sender id as carried in wire packet 1, and the integer
timestamp decoded from wire packet 3.  For directly received messages the
source stores the connection object as `sender`; the handler connection is
passed to `handle_request` separately here. -/
structure PMessage where
  msg : String
  sender : String
  time : Nat
deriving DecidableEq

/-- Whether `sep` occurs at the start of `s`. -/
def beginsWith : List Char → List Char → Bool
  | [], _ => true
  | _ :: _, [] => false
  | a :: as, b :: bs => a == b && beginsWith as bs

/-- Python `str.split(sep)` for a non-empty separator, on character lists,
with explicit fuel so the recursion is structural (the length of the
input is always enough fuel): scan left to right, closing the current
piece at each non-overlapping occurrence of `sep`. -/
def splitGo (sep : List Char) : Nat → List Char → List Char → List (List Char)
  | 0, acc, _ => [acc.reverse]
  | fuel + 1, acc, s =>
    if s = [] then [acc.reverse]
    else if beginsWith sep s then
      acc.reverse :: splitGo sep fuel [] (s.drop sep.length)
    else
      match s with
      | [] => [acc.reverse]
      | c :: rest => splitGo sep fuel (c :: acc) rest

/-- `message.parse()`: split `msg` on the protocol separator. -/
def PMessage.parse (m : PMessage) : List String :=
  (splitGo sep_sequence.toList m.msg.toList.length [] m.msg.toList).map
    fun cs => String.mk cs

/-- `message.id()`: base-58 of SHA-384 (abstracted as `H`) over
`msg + to_base_58(time)`. -/
def PMessage.pid (H : String → Nat) (m : PMessage) : String :=
  to_base_58 (H (m.msg ++ to_base_58 m.time))

/-- `p2p.p2p_connection` (the state the socket logic reads): `tag` models
Python object identity, `id`/`addr`/`compression` are set by the
handshake, `outgoing` by the dialer.  `addr` and `compression` keep the
raw JSON text of the handshake packets (`json.dumps ∘ json.loads` is
modelled as the identity on that text). -/
structure Conn where
  tag : Nat
  id : Option String
  addr : Option String
  compression : String
  outgoing : Bool
deriving DecidableEq

/-- One wire message handed to a connection's socket by
`p2p_connection.send`: the connection's tag and the packet list
`[msg_type, sender, msg_id, time] + args` (stream compression of the
serialized form is not modelled; the claims are about packet contents). -/
structure Frame where
  conn : Nat
  packets : List String
deriving DecidableEq

/-- `p2p.p2p_socket` state: routing table (insertion-ordered dict),
pending-handshake list, outgoing/incoming id lists, request rendezvous
table, waterfall seen set (front = newest end of the deque), user queue
(front = newest end), and a counter modelling allocation of fresh
connection objects. -/
structure Socket where
  id : String
  protocolId : String
  outAddr : String × Nat
  routing_table : List (String × Conn)
  awaiting_ids : List Conn
  outgoing : List String
  incoming : List String
  requests : List (String × List String)
  waterfalls : List (String × Nat)
  queue : List PMessage
  nextTag : Nat
deriving DecidableEq

/-- `p2p_socket.__init__` with the tables empty. -/
def initialSocket (id protocolId : String) (outAddr : String × Nat) : Socket :=
  { id := id, protocolId := protocolId, outAddr := outAddr
    routing_table := [], awaiting_ids := [], outgoing := [], incoming := []
    requests := [], waterfalls := [], queue := [], nextTag := 0 }

/-- The external collaborators of `p2p.py`: the SHA-384 digest (as an
abstract map from hashed text to integer) and the JSON codec used for the
peers exchange and the rendezvous addresses. -/
structure Ext where
  H : String → Nat
  loadsPeers : String → List (String × Option (String × Nat))
  dumpsPeers : List (String × Option String) → String
  loadsAddr : String → Option (String × Nat)

/-- `json.dumps` of an `(addr, port)` tuple. -/
def json_dumps_addr (a : String × Nat) : String :=
  "[\"" ++ a.1 ++ "\", " ++ toString a.2 ++ "]"

/-- `json.dumps(compression)` for the module-scope preference list
(`gzip`, `bz2`, and `lzma` when importable). -/
def compression_json : String := "[\"gzip\", \"bz2\", \"lzma\"]"

/-- Python `dict.get` on the insertion-ordered routing table. -/
def dictGet (rt : List (String × Conn)) (k : String) : Option Conn :=
  (rt.find? fun p => p.1 = k).map (·.2)

/-- Python `dict.update({k: v})`: replace in place when the key exists,
append otherwise. -/
def dictUpdate (rt : List (String × Conn)) (k : String) (v : Conn) :
    List (String × Conn) :=
  if rt.any fun p => p.1 = k then
    rt.map fun p => if p.1 = k then (k, v) else p
  else rt ++ [(k, v)]

/-- `dict.get` on the request rendezvous table. -/
def requestsGet (rq : List (String × List String)) (k : String) :
    Option (List String) :=
  (rq.find? fun p => p.1 = k).map (·.2)

/-- `dict.pop(k)` on the request rendezvous table. -/
def requestsPop (rq : List (String × List String)) (k : String) :
    List (String × List String) :=
  rq.filter fun p => p.1 ≠ k

/-- `p2p_connection.send(msg_type, *args)` as observed by the server
state: compute the message id over `sep.join(args) + time`, record
`(msg_id, from_base_58(time))` in the server's waterfall deque, and emit
the packets `[msg_type, server_id, msg_id, time] + args`.  The source
guards the insert with `(msg_id, time) not in self.server.waterfalls`,
but there `time` is the base-58 string while the deque stores integer
timestamps, so that tuple comparison never succeeds and the insert is
unconditional. -/
def connSend (H : String → Nat) (now : Nat) (serverId : String)
    (w : List (String × Nat)) (c : Conn) (msg_type : String)
    (args : List String) : List (String × Nat) × Frame :=
  let time58 := to_base_58 now
  let msg_id := to_base_58 (H (String.intercalate sep_sequence args ++ time58))
  ((msg_id, from_base_58 time58) :: w,
   ⟨c.tag, [msg_type, serverId, msg_id, time58] ++ args⟩)

/-- The first half of `p2p_socket.waterfall` on a fresh id: push
`(msg.id(), msg.time)` on the newest end, then re-send
`('waterfall', *msg.parse())` through every routing-table handler (each
such send also pushes its own `(msg_id, time)` pair, see `connSend`). -/
def waterfallInserted (E : Ext) (now : Nat) (s : Socket) (m : PMessage) :
    List (String × Nat) × List Frame :=
  s.routing_table.foldl
    (fun acc kc =>
      let r := connSend E.H now s.id acc.1 kc.2 "waterfall" m.parse
      (r.1, acc.2 ++ [r.2]))
    ((m.pid E.H, m.time) :: s.waterfalls, [])

/-- `p2p_socket.waterfall(msg)`: duplicate ids are dropped; a fresh id is
recorded and rebroadcast, then the deque is rebuilt as `deque(set(...))`
(modelled with `List.dedup`; Python's set order is unspecified, and no
theorem below depends on the order), entries with `t - getUTC() > 60` are
removed, and the deque is popped from the oldest end down to 100
entries. -/
def waterfall (E : Ext) (now : Nat) (s : Socket) (m : PMessage) :
    Bool × Socket × List Frame :=
  if m.pid E.H ∈ s.waterfalls.map Prod.fst then (false, s, [])
  else
    let ins := waterfallInserted E now s m
    let w2 := ins.1.dedup
    let w3 := w2.filter fun p => !decide (p.2 - now > 60)
    let w4 := w3.take 100
    (true, { s with waterfalls := w4 }, ins.2)

/-- `p2p_socket.connect(addr, port, id)`: refuse when dialing our own
outward address (the `getaddrinfo` comparison is modelled as equality of
the `(host, port)` pair) or an id already routed; otherwise allocate an
outgoing connection, send our handshake through it, and file it under
`awaiting_ids` (no id) or directly in the routing table. -/
def connect (E : Ext) (now : Nat) (s : Socket) (addr : String) (port : Nat)
    (idOpt : Option String) : Socket × List Frame :=
  if (addr, port) = s.outAddr ∨
      (idOpt.isSome ∧ (dictGet s.routing_table (idOpt.getD "")).isSome) then
    (s, [])
  else
    let c : Conn := ⟨s.nextTag, idOpt, none, "", true⟩
    let r := connSend E.H now s.id s.waterfalls c "whisper"
      ["handshake", s.id, s.protocolId, json_dumps_addr s.outAddr, compression_json]
    let s' := { s with waterfalls := r.1, nextTag := s.nextTag + 1 }
    match idOpt with
    | none => ({ s' with awaiting_ids := s'.awaiting_ids ++ [c] }, [r.2])
    | some i => ({ s' with routing_table := dictUpdate s'.routing_table i c }, [r.2])

/-- `p2p_daemon.disconnect(handler)`: drop from `awaiting_ids` (object
identity = `tag`) or else from the routing table under the handler's id,
then from the outgoing or else the incoming id list. -/
def disconnect (s : Socket) (c : Conn) : Socket :=
  let s1 :=
    if s.awaiting_ids.any fun x => x.tag = c.tag then
      { s with awaiting_ids := s.awaiting_ids.eraseP fun x => x.tag = c.tag }
    else if (c.id.bind fun i => dictGet s.routing_table i).isSome then
      { s with routing_table := s.routing_table.filter fun p => p.1 ≠ c.id.getD "" }
    else s
  match c.id with
  | none => s1
  | some i =>
    if i ∈ s1.outgoing then { s1 with outgoing := s1.outgoing.erase i }
    else if i ∈ s1.incoming then { s1 with incoming := s1.incoming.erase i }
    else s1

/-- `p2p_socket.handle_request(msg)` — the dispatcher.  `handler` is the
connection the message arrived on (the source stores it in `msg.sender`
for directly received messages; the waterfall branch never reads it).
Returns the new socket state and the frames sent.  Notes kept from the
source: the protocol-mismatch branch calls `awaiting_ids.remove(handler)`
unconditionally (a `ValueError` when absent is not modelled); in the
`response` branch, `routing_table[packets[3]]` raises `KeyError` when the
preceding `connect` refused — modelled as sending nothing. -/
def handleRequest (E : Ext) (now : Nat) (s : Socket) (m : PMessage)
    (handler : Conn) : Socket × List Frame :=
  let packets := m.parse
  let p0 := packets.getD 0 ""
  if p0 = "handshake" then
    if packets.getD 2 "" ≠ s.protocolId then
      ({ s with awaiting_ids := s.awaiting_ids.eraseP fun x => x.tag = handler.tag }, [])
    else
      let h' : Conn := { handler with
        id := some (packets.getD 1 "")
        addr := some (packets.getD 3 "")
        compression := packets.getD 4 "" }
      let s1 :=
        if handler.outgoing then { s with outgoing := s.outgoing ++ [packets.getD 1 ""] }
        else { s with incoming := s.incoming ++ [packets.getD 1 ""] }
      let s2 := { s1 with
        awaiting_ids := s1.awaiting_ids.eraseP fun x => x.tag = handler.tag
        routing_table := dictUpdate s1.routing_table (packets.getD 1 "") h' }
      let peersPayload :=
        E.dumpsPeers (s2.routing_table.map fun kc => (kc.1, kc.2.addr))
      let r := connSend E.H now s2.id s2.waterfalls h' "whisper" ["peers", peersPayload]
      ({ s2 with waterfalls := r.1 }, [r.2])
  else if p0 = "peers" then
    let new_peers := E.loadsPeers (packets.getD 1 "")
    new_peers.foldl
      (fun acc pr =>
        if acc.1.outgoing.length < max_outgoing ∧ pr.2.isSome then
          let a := pr.2.getD ("", 0)
          let r := connect E now acc.1 a.1 a.2 (some pr.1)
          (r.1, acc.2 ++ r.2)
        else acc)
      (s, [])
  else if p0 = "whisper" then
    ({ s with queue := m :: s.queue }, [])
  else if p0 = "response" then
    match requestsGet s.requests (packets.getD 1 "") with
    | none => (s, [])
    | some stored =>
      if stored = [] then (s, [])
      else
        match E.loadsAddr (packets.getD 2 "") with
        | none => (s, [])
        | some a =>
          let s1 := { s with requests := requestsPop s.requests (packets.getD 1 "") }
          let r := connect E now s1 a.1 a.2 (some (packets.getD 3 ""))
          let s2 := r.1
          match dictGet s2.routing_table (packets.getD 3 "") with
          | none => (s2, r.2)
          | some target =>
            let snd := connSend E.H now s2.id s2.waterfalls target
              (stored.getD 0 "") (stored.drop 1)
            ({ s2 with waterfalls := snd.1 }, r.2 ++ [snd.2])
  else if p0 = "request" then
    match dictGet s.routing_table (packets.getD 2 "") with
    | none => (s, [])
    | some target =>
      let r := connSend E.H now s.id s.waterfalls handler "whisper"
        ["response", target.addr.getD "null"]
      ({ s with waterfalls := r.1 }, [r.2])
  else
    let w := waterfall E now s m
    if w.1 then ({ w.2.1 with queue := m :: w.2.1.queue }, w.2.2)
    else (w.2.1, w.2.2)

/-- The result of `p2p_socket.recv`: a single message, `None`, or a list. -/
inductive RecvOut
  | msg (m : PMessage)
  | noneVal
  | list (ms : List PMessage)
deriving DecidableEq

/-- The `while len(self.queue) and quantity > 0: ret_list.append(self.queue.pop())`
loop of `recv`: pop from the oldest end of the deque, up to `quantity`
messages. -/
def recvMany : Nat → List PMessage → List PMessage × List PMessage
  | 0, q => ([], q)
  | k + 1, q =>
    match q.getLast? with
    | none => ([], q)
    | some m =>
      let r := recvMany k q.dropLast
      (m :: r.1, r.2)

/-- `p2p_socket.recv(quantity)`: for `quantity ≠ 1` a (possibly empty)
list, otherwise one message, or `None` when the queue is empty. -/
def recv (s : Socket) (quantity : Nat) : RecvOut × Socket :=
  if quantity ≠ 1 then
    let r := recvMany quantity s.queue
    (.list r.1, { s with queue := r.2 })
  else
    match s.queue.getLast? with
    | some m => (.msg m, { s with queue := s.queue.dropLast })
    | none => (.noneVal, s)

/-- The socket operations of C7: user-initiated `connect`, delivery of a
message on an existing connection (found by tag among the routing table
and the pending list), and daemon `disconnect`. -/
inductive Op
  | connectOp (addr : String) (port : Nat) (id : Option String)
  | deliver (m : PMessage) (tag : Nat)
  | disconnectOp (tag : Nat)

/-- Find a live connection by tag. -/
def findConn (s : Socket) (tag : Nat) : Option Conn :=
  ((s.routing_table.map Prod.snd) ++ s.awaiting_ids).find? fun c => c.tag = tag

/-- Apply one socket operation (frames sent are discarded). -/
def step (E : Ext) (now : Nat) (s : Socket) : Op → Socket
  | .connectOp addr port id => (connect E now s addr port id).1
  | .deliver m tag =>
    match findConn s tag with
    | some c => (handleRequest E now s m c).1
    | none => s
  | .disconnectOp tag =>
    match findConn s tag with
    | some c => disconnect s c
    | none => s

/-- Run a sequence of socket operations. -/
def runOps (E : Ext) (now : Nat) (s : Socket) (ops : List Op) : Socket :=
  ops.foldl (step E now) s

/-- Fold `waterfall` over a stream of received broadcasts (the state after
each call feeds the next). -/
def waterfallTrace (E : Ext) (now : Nat) (s : Socket) (ms : List PMessage) : Socket :=
  ms.foldl (fun st m => (waterfall E now st m).2.1) s

/-- Concrete external collaborators for evaluating the socket on closed
inputs: the digest is the character count of the hashed text, the JSON
codec is trivial. -/
def testExt : Ext where
  H := fun s => s.length
  loadsPeers := fun _ => []
  dumpsPeers := fun _ => ""
  loadsAddr := fun _ => none

/-- Like `testExt`, but the peers payload decodes to one connectable
entry. -/
def testExtPeers : Ext where
  H := fun s => s.length
  loadsPeers := fun _ => [("z", some ("q", 3))]
  dumpsPeers := fun _ => ""
  loadsAddr := fun _ => none

end P2P

namespace Base

theorem unpack_value_nil : unpack_value [] = 0 := rfl

theorem unpack_value_foldl (v : Nat) (l : List Nat) :
    l.foldl (fun a c => a * 256 + c) v = v * 256 ^ l.length + unpack_value l := by
  induction l generalizing v with
  | nil => simp [unpack_value]
  | cons a l ih =>
    have h1 : unpack_value (a :: l) = a * 256 ^ l.length + unpack_value l := by
      simpa [unpack_value] using ih a
    simp only [List.foldl_cons, List.length_cons, unpack_value] at *
    rw [ih (v * 256 + a), h1]
    ring

theorem unpack_value_append (x y : List Nat) :
    unpack_value (x ++ y) = unpack_value x * 256 ^ y.length + unpack_value y := by
  simp only [unpack_value, List.foldl_append]
  exact unpack_value_foldl (unpack_value x) y

theorem unpack_value_replicate_zero (n : Nat) :
    unpack_value (List.replicate n 0) = 0 := by
  induction n with
  | zero => rfl
  | succ k ih =>
    simpa [unpack_value, List.replicate_succ, List.foldl_cons] using ih

theorem pack_loop_spec (fuel : Nat) :
    ∀ (i : Nat) (acc : List Nat), i < 256 ^ fuel →
      ∃ ds, pack_loop fuel i acc = (ds ++ acc, 0) ∧
        ds.length ≤ fuel ∧ unpack_value ds = i := by
  induction fuel with
  | zero =>
    intro i acc hi
    have : i = 0 := by simpa using hi
    subst this
    exact ⟨[], rfl, by simp, rfl⟩
  | succ k ih =>
    intro i acc hi
    by_cases h0 : i / 256 = 0
    · refine ⟨[i % 256], ?_, by simp, ?_⟩
      · simp [pack_loop, h0]
      · have : i < 256 := by omega
        simp [unpack_value]
        omega
    · have hlt : i / 256 < 256 ^ k := by
        rw [Nat.div_lt_iff_lt_mul (by omega : 0 < 256)]
        calc i < 256 ^ (k + 1) := hi
        _ = 256 ^ k * 256 := by rw [Nat.pow_succ]
      obtain ⟨ds, hds, hlen, hval⟩ := ih (i / 256) ((i % 256) :: acc) hlt
      refine ⟨ds ++ [i % 256], ?_, ?_, ?_⟩
      · simp only [pack_loop, h0, if_false]
        rw [hds, List.append_assoc]
        simp
      · simpa using Nat.add_le_add hlen (Nat.le_refl 1)
      · rw [unpack_value_append, hval]
        have : unpack_value [i % 256] = i % 256 := by simp [unpack_value]
        rw [this]
        simp only [List.length_singleton, pow_one]
        omega

theorem pack_value_spec (len i : Nat) (hi : i < 256 ^ len) :
    ∃ w, pack_value len i = some w ∧ w.length = len ∧ unpack_value w = i := by
  obtain ⟨ds, hds, hlen, hval⟩ := pack_loop_spec len i [] hi
  refine ⟨List.replicate (len - ds.length) 0 ++ ds, ?_, ?_, ?_⟩
  · simp only [pack_value, hds]
    simp
  · simp only [List.length_append, List.length_replicate]
    omega
  · rw [unpack_value_append, unpack_value_replicate_zero, hval]
    ring


theorem base58_digit_index :
    ∀ k, k < 58 → base58_chars.indexOf (base58_chars.getD k 0) = k := by decide

theorem from_base_58_concat (a : List Nat) (c : Nat) :
    from_base_58 (a ++ [c]) = from_base_58 a * 58 + base58_chars.indexOf c := by
  simp [from_base_58, List.foldl_append]

theorem to_base_58_go_zero : ∀ fuel, to_base_58_go fuel 0 = [] := by
  intro fuel
  cases fuel <;> simp [to_base_58_go]

theorem to_base_58_go_congr :
    ∀ (f₁ : Nat) (i f₂ : Nat), i ≤ f₁ → i ≤ f₂ →
      to_base_58_go f₁ i = to_base_58_go f₂ i := by
  intro f₁
  induction f₁ with
  | zero =>
    intro i f₂ h₁ _
    have : i = 0 := by omega
    subst this
    rw [to_base_58_go_zero, to_base_58_go_zero]
  | succ k ih =>
    intro i f₂ h₁ h₂
    by_cases hz : i = 0
    · subst hz
      rw [to_base_58_go_zero, to_base_58_go_zero]
    · cases f₂ with
      | zero => omega
      | succ k₂ =>
        simp only [to_base_58_go, if_neg hz]
        have hdiv : i / 58 < i := Nat.div_lt_self (Nat.pos_of_ne_zero hz) (by omega)
        rw [ih (i / 58) k₂ (by omega) (by omega)]

theorem to_base_58_core_eq (i : Nat) :
    to_base_58_core i =
      if i = 0 then []
      else to_base_58_core (i / 58) ++ [base58_chars.getD (i % 58) 0] := by
  by_cases hz : i = 0
  · subst hz
    simp [to_base_58_core, to_base_58_go_zero]
  · cases i with
    | zero => exact absurd rfl hz
    | succ n =>
      simp only [to_base_58_core, to_base_58_go, if_neg hz]
      have hdiv : (n + 1) / 58 < n + 1 := Nat.div_lt_self (by omega) (by omega)
      rw [to_base_58_go_congr n ((n + 1) / 58) ((n + 1) / 58) (by omega) (by omega)]

theorem to_base_58_core_ne_nil (i : Nat) (hi : i ≠ 0) : to_base_58_core i ≠ [] := by
  rw [to_base_58_core_eq]
  simp [hi]

theorem from_to_base_58_core (i : Nat) :
    from_base_58 (to_base_58_core i) = i := by
  induction i using Nat.strong_induction_on with
  | _ i ih =>
    rw [to_base_58_core_eq]
    by_cases h : i = 0
    · simp [h, from_base_58]
    · rw [if_neg h, from_base_58_concat,
        ih (i / 58) (Nat.div_lt_self (Nat.pos_of_ne_zero h) (by omega)),
        base58_digit_index (i % 58) (Nat.mod_lt i (by omega))]
      omega

theorem from_to_base_58 (i : Nat) : from_base_58 (to_base_58 i) = i := by
  by_cases h : i = 0
  · subst h
    decide
  · rw [to_base_58, if_neg]
    · exact from_to_base_58_core i
    · exact to_base_58_core_ne_nil i h

theorem base58_getD_mem :
    ∀ k, k < 58 → base58_chars.contains (base58_chars.getD k 0) = true := by
  decide

theorem to_base_58_go_valid :
    ∀ (fuel i : Nat),
      (to_base_58_go fuel i).all (fun c => base58_chars.contains c) = true := by
  intro fuel
  induction fuel with
  | zero => intro i; rfl
  | succ k ih =>
    intro i
    by_cases hz : i = 0
    · simp [to_base_58_go, hz]
    · simp only [to_base_58_go, if_neg hz, List.all_append]
      rw [ih (i / 58)]
      have := base58_getD_mem (i % 58) (Nat.mod_lt i (by omega))
      simpa using this

theorem to_base_58_valid (i : Nat) :
    (to_base_58 i).all (fun c => base58_chars.contains c) = true := by
  rw [to_base_58]
  by_cases hnil : to_base_58_core i = []
  · rw [if_pos hnil]
    decide
  · rw [if_neg hnil]
    exact to_base_58_go_valid i i

theorem mem_intersect {x : Nat} {a b : List Nat} :
    x ∈ intersect a b ↔ x ∈ a ∧ x ∈ b := by
  simp [intersect, List.mem_filter]

theorem intersect_eq_nil_comm {a b : List Nat} (h : intersect a b = []) :
    intersect b a = [] := by
  rw [List.eq_nil_iff_forall_not_mem] at h ⊢
  intro x hx
  rw [mem_intersect] at hx
  exact h x (mem_intersect.mpr ⟨hx.2, hx.1⟩)

theorem decompress_loop_hits (scheme : CompressionScheme) (u : Nat) (body : List Nat)
    (hu : scheme.decomp u (scheme.comp u body) = some body) :
    ∀ (L : List Nat) (fail : Bool), u ∈ L →
      (∀ x ∈ L, x ≠ u → scheme.decomp x (scheme.comp u body) = none) →
      decompress_loop scheme L (scheme.comp u body) fail = (body, false) := by
  intro L
  induction L with
  | nil => intro fail h; cases h
  | cons x rest ih =>
    intro fail hmem hfail
    by_cases hx : x = u
    · subst hx
      simp [decompress_loop, hu]
    · have hnone := hfail x (List.mem_cons_self x rest) hx
      have hrest : u ∈ rest := by
        cases hmem with
        | head => exact absurd rfl hx
        | tail _ h => exact h
      simp only [decompress_loop, hnone]
      exact ih true hrest fun y hy hne => hfail y (List.mem_cons_of_mem x hy) hne

theorem process_go_nil : ∀ fuel, process_go fuel [] = [] := by
  intro fuel
  cases fuel <;> simp [process_go]

theorem process_go_congr :
    ∀ (f₁ : Nat) (s : List Nat) (f₂ : Nat), s.length ≤ f₁ → s.length ≤ f₂ →
      process_go f₁ s = process_go f₂ s := by
  intro f₁
  induction f₁ with
  | zero =>
    intro s f₂ h₁ _
    have : s = [] := by
      cases s with
      | nil => rfl
      | cons a t => simp at h₁
    subst this
    rw [process_go_nil, process_go_nil]
  | succ k ih =>
    intro s f₂ h₁ h₂
    by_cases hz : s = []
    · subst hz
      rw [process_go_nil, process_go_nil]
    · cases f₂ with
      | zero =>
        exfalso
        exact hz (by cases s with
          | nil => rfl
          | cons a t => simp at h₂)
      | succ k₂ =>
        simp only [process_go, if_neg hz]
        have hpos : 1 ≤ s.length := by
          cases s with
          | nil => exact absurd rfl hz
          | cons a t => simp
        have hrest : ((s.drop 4).drop (unpack_value (s.take 4))).length ≤ s.length - 1 := by
          simp only [List.length_drop]
          omega
        rw [ih ((s.drop 4).drop (unpack_value (s.take 4))) k₂ (by omega) (by omega)]

theorem process_string_eq (s : List Nat) :
    process_string s =
      if s = [] then []
      else ((s.drop 4).take (unpack_value (s.take 4))) ::
        process_string ((s.drop 4).drop (unpack_value (s.take 4))) := by
  by_cases hz : s = []
  · subst hz
    simp [process_string, process_go_nil]
  · cases hs : s with
    | nil => exact absurd hs hz
    | cons a t =>
      rw [← hs]
      have hlen : 1 ≤ s.length := by rw [hs]; simp
      simp only [process_string, if_neg hz]
      cases hl : s.length with
      | zero => omega
      | succ n =>
        simp only [process_go, if_neg hz]
        have hrest : ((s.drop 4).drop (unpack_value (s.take 4))).length ≤ n := by
          simp only [List.length_drop]
          omega
        rw [process_go_congr n ((s.drop 4).drop (unpack_value (s.take 4)))
          ((s.drop 4).drop (unpack_value (s.take 4))).length hrest (Nat.le_refl _)]

theorem process_string_nil : process_string [] = [] := by
  simp [process_string, process_go_nil]

theorem process_string_encode :
    ∀ (ps : List (List Nat)), (∀ p ∈ ps, p.length < 256 ^ 4) →
      ∀ enc, (ps.mapM fun p => (pack_value 4 p.length).map (· ++ p)) = some enc →
        process_string enc.flatten = ps := by
  intro ps
  induction ps with
  | nil =>
    intro _ enc henc
    simp only [List.mapM_nil, pure, Option.some_inj] at henc
    subst henc
    simpa using process_string_nil
  | cons p rest ih =>
    intro hb enc henc
    obtain ⟨w, hw, hwlen, hwval⟩ :=
      pack_value_spec 4 p.length (hb p (List.mem_cons_self p rest))
    rw [List.mapM_cons] at henc
    simp only [hw, Option.map_some, Option.bind_eq_bind, Option.some_bind] at henc
    cases henc' : rest.mapM fun q => (pack_value 4 q.length).map (· ++ q) with
    | none => rw [henc'] at henc; simp at henc
    | some enc' =>
      rw [henc'] at henc
      have henc2 : (w ++ p) :: enc' = enc := by simpa using henc
      subst henc2
      have hflat : ((w ++ p) :: enc').flatten = w ++ (p ++ enc'.flatten) := by
        simp
      rw [hflat, process_string_eq]
      have hne : w ++ (p ++ enc'.flatten) ≠ [] := by
        intro hcontra
        have : w = [] := by
          cases w with
          | nil => rfl
          | cons a b => simp at hcontra
        rw [this] at hwlen
        simp at hwlen
      rw [if_neg hne]
      have htake : (w ++ (p ++ enc'.flatten)).take 4 = w := by
        rw [← hwlen]
        exact List.take_left w (p ++ enc'.flatten)
      have hdrop : (w ++ (p ++ enc'.flatten)).drop 4 = p ++ enc'.flatten := by
        rw [← hwlen]
        exact List.drop_left w (p ++ enc'.flatten)
      rw [htake, hdrop, hwval, List.take_left p enc'.flatten,
        List.drop_left p enc'.flatten]
      exact congrArg (p :: ·) (ih (fun q hq => hb q (List.mem_cons_of_mem p hq)) enc' henc')

theorem mapM_pack_some :
    ∀ (ps : List (List Nat)), (∀ p ∈ ps, p.length < 256 ^ 4) →
      ∃ enc, (ps.mapM fun p => (pack_value 4 p.length).map (· ++ p)) = some enc := by
  intro ps
  induction ps with
  | nil => intro _; exact ⟨[], rfl⟩
  | cons p rest ih =>
    intro hb
    obtain ⟨w, hw, _, _⟩ := pack_value_spec 4 p.length (hb p (List.mem_cons_self p rest))
    obtain ⟨enc', henc'⟩ := ih fun q hq => hb q (List.mem_cons_of_mem p hq)
    refine ⟨(w ++ p) :: enc', ?_⟩
    have hfp : (pack_value 4 p.length).map (· ++ p) = some (w ++ p) := by
      rw [hw]
      rfl
    rw [List.mapM_cons, hfp, henc']
    rfl

/-- C1.  Encode/decode round trip: for every `InternalMessage` whose
packets and framed body fit the 4-byte length headers, and any compression
scheme whose decoders invert their own encoder and reject the others'
output, `feed_string(m.string, sizeless := false, compressions :=
m.compression)` succeeds and returns a message with the same `msg_type`,
`sender`, `payload`, `compression`, `time` — and hence the same `id` — as
`m`; moreover the outer length header of the frame equals the byte count
of the remainder. -/
theorem feed_string_roundtrip
    (H : List Nat → Nat) (scheme : CompressionScheme) (m : InternalMessage)
    (hinv : ∀ mth ∈ scheme.methods, ∀ s, scheme.decomp mth (scheme.comp mth s) = some s)
    (hsep : ∀ mth mth' : Nat, mth ≠ mth' → ∀ s, scheme.decomp mth (scheme.comp mth' s) = none)
    (hp : ∀ p ∈ m.packets H, p.length < 2 ^ 32)
    (hb : ∀ b, m.non_len_string H scheme = some b → b.length < 2 ^ 32) :
    ∃ str, m.string H scheme = some str ∧
      unpack_value (str.take 4) = (str.drop 4).length ∧
      feed_string H scheme str false m.compression =
        .ok ⟨m.msg_type, m.sender, m.payload, m.compression, m.time, false⟩ ∧
      InternalMessage.id H
        ⟨m.msg_type, m.sender, m.payload, m.compression, m.time, false⟩ = m.id H := by
  have h232 : (2 : Nat) ^ 32 = 256 ^ 4 := by norm_num
  have hp' : ∀ p ∈ m.packets H, p.length < 256 ^ 4 := fun p hmem => h232 ▸ hp p hmem
  obtain ⟨enc, henc⟩ := mapM_pack_some (m.packets H) hp'
  -- the encoded (possibly compressed) body
  have hnls : ∃ nls, m.non_len_string H scheme = some nls ∧
      (∀ body, process_string body = m.packets H →
        decompress_string scheme m.compression nls = (body, false) →
        True) := by
    exact ⟨_, by rw [InternalMessage.non_len_string, henc]; rfl, fun _ _ _ => trivial⟩
  obtain ⟨nls, hnlseq, -⟩ := hnls
  have hnlen : nls.length < 256 ^ 4 := h232 ▸ hb nls hnlseq
  obtain ⟨w4, hw4, hw4len, hw4val⟩ := pack_value_spec 4 nls.length hnlen
  have hstr : m.string H scheme = some (w4 ++ nls) := by
    rw [InternalMessage.string, hnlseq]
    simp [hw4]
  refine ⟨w4 ++ nls, hstr, ?_, ?_, rfl⟩
  · rw [← hw4len, List.take_left w4 nls, List.drop_left w4 nls]
    exact hw4val
  -- the decompression stage returns the plaintext packet stream
  have hdec : decompress_string scheme m.compression nls = (enc.flatten, false) := by
    rw [InternalMessage.non_len_string, henc] at hnlseq
    have hnlseq2 :
        (match m.compression_used scheme with
          | some mth => scheme.comp mth enc.flatten
          | none => enc.flatten) = nls := by
      simpa using hnlseq
    rw [decompress_string]
    cases hI : intersect scheme.methods m.compression with
    | nil =>
      have hL : intersect m.compression scheme.methods = [] := intersect_eq_nil_comm hI
      have hused0 : m.compression_used scheme = none := by
        rw [InternalMessage.compression_used, hI]
        rfl
      rw [hused0] at hnlseq2
      rw [hL, ← hnlseq2]
      rfl
    | cons u rest =>
      have hused : m.compression_used scheme = some u := by
        rw [InternalMessage.compression_used, hI]
        rfl
      rw [hused] at hnlseq2
      have humem : u ∈ intersect scheme.methods m.compression := by
        rw [hI]; exact List.mem_cons_self u rest
      have hu1 : u ∈ scheme.methods := (mem_intersect.mp humem).1
      have hu2 : u ∈ m.compression := (mem_intersect.mp humem).2
      have huL : u ∈ intersect m.compression scheme.methods :=
        mem_intersect.mpr ⟨hu2, hu1⟩
      rw [← hnlseq2]
      exact decompress_loop_hits scheme u enc.flatten
        (hinv u hu1 enc.flatten)
        (intersect m.compression scheme.methods) false huL
        (fun x _ hne => hsep x u hne enc.flatten)
  have hproc : process_string enc.flatten = m.packets H :=
    process_string_encode (m.packets H) hp' enc henc
  -- run the decoder
  rw [feed_string]
  have hsan : sanitize_string (w4 ++ nls) false = .ok nls := by
    rw [sanitize_string]
    simp only [Bool.false_eq_true, if_false]
    rw [← hw4len, List.take_left w4 nls, List.drop_left w4 nls, hw4val]
    simp
  rw [hsan]
  simp only [hdec, hproc]
  have hplen : 4 ≤ (m.packets H).length := by
    rw [InternalMessage.packets]
    simp
  rw [if_pos hplen]
  have hg0 : (m.packets H).getD 0 [] = m.msg_type := rfl
  have hg1 : (m.packets H).getD 1 [] = m.sender := rfl
  have hg2 : (m.packets H).getD 2 [] = m.id H := rfl
  have hg3 : (m.packets H).getD 3 [] = m.time_58 := rfl
  have hg4 : (m.packets H).drop 4 = m.payload := rfl
  rw [hg0, hg1, hg2, hg3, hg4]
  have hval : (m.time_58).all (fun c => base58_chars.contains c) = true :=
    to_base_58_valid m.time
  rw [if_pos hval]
  have htime : from_base_58 m.time_58 = m.time := from_to_base_58 m.time
  rw [htime]
  have hid : m.id H =
      InternalMessage.id H
        ⟨m.msg_type, m.sender, m.payload, m.compression, m.time, false⟩ := rfl
  rw [if_pos hid]

/-- Witness for C1: the hypotheses of `feed_string_roundtrip` hold for the
concrete scheme `tagScheme`, digest `lenHash` and message
`sampleMessage`, and the round trip follows by the theorem. -/
theorem feed_string_roundtrip_witness :
    (∀ mth ∈ tagScheme.methods, ∀ s, tagScheme.decomp mth (tagScheme.comp mth s) = some s) ∧
    (∀ mth mth' : Nat, mth ≠ mth' → ∀ s, tagScheme.decomp mth (tagScheme.comp mth' s) = none) ∧
    (∀ p ∈ sampleMessage.packets lenHash, p.length < 2 ^ 32) ∧
    (∀ b, sampleMessage.non_len_string lenHash tagScheme = some b → b.length < 2 ^ 32) ∧
    (∃ str, sampleMessage.string lenHash tagScheme = some str ∧
      unpack_value (str.take 4) = (str.drop 4).length ∧
      feed_string lenHash tagScheme str false sampleMessage.compression =
        .ok ⟨sampleMessage.msg_type, sampleMessage.sender, sampleMessage.payload,
          sampleMessage.compression, sampleMessage.time, false⟩ ∧
      InternalMessage.id lenHash
        ⟨sampleMessage.msg_type, sampleMessage.sender, sampleMessage.payload,
          sampleMessage.compression, sampleMessage.time, false⟩ =
        sampleMessage.id lenHash) := by
  have h1 : ∀ mth ∈ tagScheme.methods, ∀ s,
      tagScheme.decomp mth (tagScheme.comp mth s) = some s := by
    intro mth _ s
    simp [tagScheme]
  have h2 : ∀ mth mth' : Nat, mth ≠ mth' → ∀ s,
      tagScheme.decomp mth (tagScheme.comp mth' s) = none := by
    intro mth mth' hne s
    simp only [tagScheme]
    rw [if_neg fun h => hne h.symm]
  have h3 : ∀ p ∈ sampleMessage.packets lenHash, p.length < 2 ^ 32 := by decide
  have h4 : ∀ b, sampleMessage.non_len_string lenHash tagScheme = some b →
      b.length < 2 ^ 32 := by
    intro b hb
    have hx : (sampleMessage.non_len_string lenHash tagScheme).all
        (fun l => decide (l.length < 2 ^ 32)) = true := by decide
    rw [hb] at hx
    simpa using hx
  exact ⟨h1, h2, h3, h4,
    feed_string_roundtrip lenHash tagScheme sampleMessage h1 h2 h3 h4⟩

theorem sanitize_string_error_eq (s : List Nat) (sizeless : Bool) (e : FrameErr)
    (h : sanitize_string s sizeless = .error e) : e = .sizeMismatch := by
  rw [sanitize_string] at h
  by_cases h1 : sizeless = true
  · rw [if_pos h1] at h
    cases h
  · rw [if_neg h1] at h
    by_cases h2 : unpack_value (s.take 4) = (s.drop 4).length
    · rw [if_pos h2] at h
      cases h
    · rw [if_neg h2] at h
      cases h
      rfl

/-- C8.  Checksum errors characterized: `feed_string` fails with the
checksum error exactly when the frame passes the size check, the
(possibly decompressed) body splits into at least four packets, the time
packet stays inside the base-58 alphabet (so `from_base_58` can decode
it), and the third packet differs from base-58 of the digest of the
concatenated payload packets followed by the canonicalized `time_58`;
when they agree — or when an earlier stage fails — no checksum error is
raised. -/
theorem feed_string_checksum_iff
    (H : List Nat → Nat) (scheme : CompressionScheme)
    (s : List Nat) (sizeless : Bool) (comps : List Nat) :
    feed_string H scheme s sizeless comps = .error .checksumFailed ↔
      ∃ s1, sanitize_string s sizeless = .ok s1 ∧
        4 ≤ (process_string (decompress_string scheme comps s1).1).length ∧
        ((process_string (decompress_string scheme comps s1).1).getD 3 []).all
          (fun c => base58_chars.contains c) = true ∧
        (process_string (decompress_string scheme comps s1).1).getD 2 [] ≠
          to_base_58 (H
            (((process_string (decompress_string scheme comps s1).1).drop 4).flatten ++
              to_base_58 (from_base_58
                ((process_string (decompress_string scheme comps s1).1).getD 3 [])))) := by
  cases hs : sanitize_string s sizeless with
  | error e =>
    have he : e = .sizeMismatch := sanitize_string_error_eq s sizeless e hs
    subst he
    constructor
    · intro h
      rw [feed_string, hs] at h
      cases h
    · rintro ⟨s1, hs1, -, -, -⟩
      cases hs1
  | ok s1 =>
    rw [feed_string, hs]
    dsimp only
    have hidrec : InternalMessage.id H
        { msg_type := (process_string (decompress_string scheme comps s1).1).getD 0 []
          sender := (process_string (decompress_string scheme comps s1).1).getD 1 []
          payload := (process_string (decompress_string scheme comps s1).1).drop 4
          compression := comps
          time := from_base_58 ((process_string (decompress_string scheme comps s1).1).getD 3 [])
          compression_fail := (decompress_string scheme comps s1).2 } =
        to_base_58 (H
          (((process_string (decompress_string scheme comps s1).1).drop 4).flatten ++
            to_base_58 (from_base_58
              ((process_string (decompress_string scheme comps s1).1).getD 3 [])))) := rfl
    by_cases hlen : 4 ≤ (process_string (decompress_string scheme comps s1).1).length
    · rw [if_pos hlen]
      by_cases hdig :
          ((process_string (decompress_string scheme comps s1).1).getD 3 []).all
            (fun c => base58_chars.contains c) = true
      · rw [if_pos hdig, hidrec]
        by_cases hid :
            (process_string (decompress_string scheme comps s1).1).getD 2 [] =
              to_base_58 (H
                (((process_string (decompress_string scheme comps s1).1).drop 4).flatten ++
                  to_base_58 (from_base_58
                    ((process_string (decompress_string scheme comps s1).1).getD 3 []))))
        · rw [if_pos hid]
          constructor
          · intro h
            cases h
          · rintro ⟨s1', hs1', -, -, hne⟩
            cases hs1'
            exact absurd hid hne
        · rw [if_neg hid]
          constructor
          · intro _
            exact ⟨s1, rfl, hlen, hdig, hid⟩
          · intro _
            rfl
      · rw [if_neg hdig]
        constructor
        · intro h
          cases h
        · rintro ⟨s1', hs1', -, hdig', -⟩
          cases hs1'
          exact absurd hdig' hdig
    · rw [if_neg hlen]
      constructor
      · intro h
        cases h
      · rintro ⟨s1', hs1', hlen', -, -⟩
        cases hs1'
        exact absurd hlen' hlen

/-- C10 (settled as a code bug).  Under Python 3, `pack_value(4, 1)`
raises `TypeError` — the `"\x00"` padding is a `str` concatenated with the
`bytes` accumulator — instead of returning the 4-byte big-endian encoding;
under the Python 2 byte-string semantics (and the docstring's contract)
the encoding round-trips: `pack_value(4, 1) = b"\x00\x00\x00\x01"` and
`unpack_value` recovers `1`. -/
theorem pack_value_python3_type_error :
    pack_value_py3 4 1 = .error .typeError ∧
    pack_value 4 1 = some [0, 0, 0, 1] ∧
    unpack_value [0, 0, 0, 1] = 1 :=
  ⟨rfl, rfl, rfl⟩

end Base

namespace P2P

theorem recvMany_eq (n : Nat) :
    ∀ q : List PMessage,
      recvMany n q = (q.reverse.take n, (q.reverse.drop n).reverse) := by
  induction n with
  | zero => intro q; simp [recvMany]
  | succ k ih =>
    intro q
    induction q using List.reverseRecOn with
    | nil => simp [recvMany]
    | append_singleton as a _ =>
      simp only [recvMany, List.getLast?_concat, List.dropLast_concat, ih as]
      have hrev : (as ++ [a]).reverse = a :: as.reverse := by simp
      rw [hrev, List.take_succ_cons, List.drop_succ_cons]

/-- C9.  `recv(n)` pops up to `n` messages from the user queue oldest
first (the queue grows by `appendleft`, so its reverse is
oldest-to-newest): for `n ≠ 1` it returns the list
`queue.reverse.take n` and keeps the rest, for `n = 1` it returns the
single oldest message, and an empty queue yields `None` (for `n = 1`) or
the empty list (for `n ≠ 1`) rather than an error. -/
theorem recv_fifo (s : Socket) (n : Nat) :
    (n ≠ 1 → recv s n =
      (.list (s.queue.reverse.take n),
       { s with queue := (s.queue.reverse.drop n).reverse })) ∧
    (recv s 1).1 = (s.queue.getLast?).elim RecvOut.noneVal RecvOut.msg ∧
    (recv s 1).2.queue = s.queue.dropLast ∧
    (s.queue = [] →
      (recv s 1).1 = .noneVal ∧ (n ≠ 1 → (recv s n).1 = .list [])) := by
  have h1 : ¬(1 ≠ 1) := by simp
  refine ⟨?_, ?_, ?_, ?_⟩
  · intro hn
    rw [recv, if_pos hn]
    dsimp only
    rw [recvMany_eq]
  · rw [recv, if_neg h1]
    cases hq : s.queue.getLast? <;> simp
  · rw [recv, if_neg h1]
    cases hq : s.queue.getLast? with
    | none =>
      have hq0 : s.queue = [] := by simpa using hq
      simp [hq0]
    | some m => simp
  · intro hq0
    constructor
    · rw [recv, if_neg h1]
      rw [hq0]
      simp
    · intro hn
      rw [recv, if_pos hn]
      dsimp only
      rw [hq0, recvMany_eq]
      simp

/-- Witness for C9 at a three-message queue (for the `n ≠ 1` branch) and
an empty queue. -/
theorem recv_fifo_witness :
    (2 ≠ 1) ∧
    recv { initialSocket "N" "P" ("h", 1) with
        queue := [⟨"c", "", 3⟩, ⟨"b", "", 2⟩, ⟨"a", "", 1⟩] } 2 =
      (.list [⟨"a", "", 1⟩, ⟨"b", "", 2⟩],
       { initialSocket "N" "P" ("h", 1) with queue := [⟨"c", "", 3⟩] }) ∧
    (recv (initialSocket "N" "P" ("h", 1)) 1).1 = .noneVal ∧
    (recv (initialSocket "N" "P" ("h", 1)) 2).1 = .list [] := by
  refine ⟨by decide, ?_, ?_, ?_⟩
  · have h := (recv_fifo { initialSocket "N" "P" ("h", 1) with
        queue := [⟨"c", "", 3⟩, ⟨"b", "", 2⟩, ⟨"a", "", 1⟩] } 2).1 (by decide)
    rw [h]
    decide
  · exact ((recv_fifo (initialSocket "N" "P" ("h", 1)) 2).2.2.2 rfl).1
  · exact ((recv_fifo (initialSocket "N" "P" ("h", 1)) 2).2.2.2 rfl).2 (by decide)

/-- C3 (settled as a code bug).  The seen-set eviction test
`t - getUTC() > 60` never removes old entries (it removes entries whose
timestamp lies more than 60 seconds in the future): at `now = 120`, after
`waterfall` accepts a fresh message and returns true, the entry
`("old", 0)` — 120 seconds old, far beyond the claimed 60-second TTL —
remains in the seen set. -/
theorem waterfall_stale_entry_persists :
    (waterfall testExt 120
        { initialSocket "N" "P" ("h", 1) with waterfalls := [("old", 0)] }
        ⟨"x", "A", 100⟩).1 = true ∧
    ("old", 0) ∈ (waterfall testExt 120
        { initialSocket "N" "P" ("h", 1) with waterfalls := [("old", 0)] }
        ⟨"x", "A", 100⟩).2.1.waterfalls ∧
    0 + 60 < 120 := by
  decide

/-- C5 (settled as a code bug).  When `waterfall` relays a fresh message,
it does re-emit to every routing-table peer, but each re-emitted frame
carries the relaying node's own id (`"R"`) in the sender position — the
original sender (`"A"`) is not preserved on the wire, because
`p2p_connection.send` always stamps `self.server.id`. -/
theorem waterfall_relay_overwrites_sender :
    let s : Socket := { initialSocket "R" "P" ("h", 1) with
        routing_table := [("B", ⟨0, some "B", none, "", false⟩),
                          ("C", ⟨1, some "C", none, "", false⟩)] }
    let m : PMessage := ⟨"broadcast" ++ sep_sequence ++ "hi", "A", 5⟩
    (waterfall testExt 5 s m).1 = true ∧
    ((waterfall testExt 5 s m).2.2.map fun f => f.packets.getD 1 "") = ["R", "R"] ∧
    ((waterfall testExt 5 s m).2.2.map fun f => f.conn) = [0, 1] ∧
    m.sender = "A" ∧ "R" ≠ "A" := by
  decide

/-- C6 (settled as a code bug).  On `whisper/request(req_id, target_id)`
with the target routed, the node does reply on the same connection, but
the reply payload is only `[response, target_addr_json]` — the code omits
`req_id` and `target_id`, which its own `response` handler expects at
positions 1 and 3; an unrouted target is ignored with no state change. -/
theorem request_reply_missing_fields :
    let s : Socket := { initialSocket "S" "P" ("h", 1) with
        routing_table := [("T", ⟨0, some "T", some "addrT", "", false⟩)] }
    let handler : Conn := ⟨7, some "Q", none, "", false⟩
    let hit := handleRequest testExt 9 s
      ⟨"request" ++ sep_sequence ++ "RID" ++ sep_sequence ++ "T", "Q", 9⟩ handler
    let miss := handleRequest testExt 9 s
      ⟨"request" ++ sep_sequence ++ "RID" ++ sep_sequence ++ "U", "Q", 9⟩ handler
    (hit.2.map fun f => f.packets.drop 4) = [["response", "addrT"]] ∧
    (hit.2.map fun f => f.conn) = [7] ∧
    (∀ f ∈ hit.2, "RID" ∉ f.packets.drop 4 ∧ "T" ∉ f.packets.drop 4) ∧
    miss.2 = [] ∧ miss.1 = s := by
  decide

theorem foldl_grow_suffix
    (step : List (String × Nat) × List Frame → String × Conn →
      List (String × Nat) × List Frame)
    (hstep : ∀ acc kc, ∃ p, (step acc kc).1 = p :: acc.1) :
    ∀ (l : List (String × Conn)) (acc : List (String × Nat) × List Frame),
      ∃ es, (l.foldl step acc).1 = es ++ acc.1 := by
  intro l
  induction l with
  | nil => intro acc; exact ⟨[], rfl⟩
  | cons kc rest ih =>
    intro acc
    rw [List.foldl_cons]
    obtain ⟨p, hp⟩ := hstep acc kc
    obtain ⟨es, hes⟩ := ih (step acc kc)
    exact ⟨es ++ [p], by rw [hes, hp, List.append_assoc, List.singleton_append]⟩

theorem waterfallInserted_suffix (E : Ext) (now : Nat) (s : Socket) (m : PMessage) :
    ∃ es, (waterfallInserted E now s m).1 =
      es ++ (m.pid E.H, m.time) :: s.waterfalls := by
  rw [waterfallInserted]
  exact foldl_grow_suffix _ (fun acc kc => ⟨_, rfl⟩) s.routing_table
    ((m.pid E.H, m.time) :: s.waterfalls, [])

/-- C2.  Waterfall is idempotent per message id: a message whose id is
already in the seen set is dropped — `waterfall` returns false, changes
nothing and sends nothing — and consequently two consecutive calls with
messages of the same id rebroadcast at most once: whenever the first
call's entry cannot be evicted (its timestamp is within the 60-second
window used by the eviction test and the deduplicated pool stays within
the 100-entry cap), the second call returns false and sends nothing. -/
theorem waterfall_idempotent (E : Ext) (now₁ now₂ : Nat) (s : Socket)
    (m₁ m₂ : PMessage)
    (hid : m₁.pid E.H = m₂.pid E.H)
    (htime : m₁.time ≤ now₁ + 60)
    (hcap : (waterfallInserted E now₁ s m₁).1.dedup.length ≤ 100) :
    (m₁.pid E.H ∈ s.waterfalls.map Prod.fst →
      waterfall E now₁ s m₁ = (false, s, [])) ∧
    waterfall E now₂ (waterfall E now₁ s m₁).2.1 m₂ =
      (false, (waterfall E now₁ s m₁).2.1, []) := by
  constructor
  · intro hmem
    rw [waterfall, if_pos hmem]
  · by_cases hmem : m₁.pid E.H ∈ s.waterfalls.map Prod.fst
    · have h1 : waterfall E now₁ s m₁ = (false, s, []) := by
        rw [waterfall, if_pos hmem]
      rw [h1]
      dsimp only
      have hmem₂ : m₂.pid E.H ∈ s.waterfalls.map Prod.fst := hid ▸ hmem
      rw [waterfall, if_pos hmem₂]
    · have h1 : waterfall E now₁ s m₁ =
          (true, { s with waterfalls :=
            ((waterfallInserted E now₁ s m₁).1.dedup.filter
              (fun p => !decide (p.2 - now₁ > 60))).take 100 },
           (waterfallInserted E now₁ s m₁).2) := by
        rw [waterfall, if_neg hmem]
      rw [h1]
      dsimp only
      obtain ⟨es, hes⟩ := waterfallInserted_suffix E now₁ s m₁
      have hmemW : (m₁.pid E.H, m₁.time) ∈ (waterfallInserted E now₁ s m₁).1 := by
        rw [hes]
        exact List.mem_append_right es (List.mem_cons_self _ _)
      have hmemD : (m₁.pid E.H, m₁.time) ∈ (waterfallInserted E now₁ s m₁).1.dedup :=
        List.mem_dedup.mpr hmemW
      have hmemF : (m₁.pid E.H, m₁.time) ∈
          (waterfallInserted E now₁ s m₁).1.dedup.filter
            (fun p => !decide (p.2 - now₁ > 60)) := by
        rw [List.mem_filter]
        refine ⟨hmemD, ?_⟩
        have hnotold : ¬ (m₁.time - now₁ > 60) := by omega
        simpa using hnotold
      have hlenF : ((waterfallInserted E now₁ s m₁).1.dedup.filter
          (fun p => !decide (p.2 - now₁ > 60))).length ≤ 100 :=
        le_trans (List.length_filter_le _ _) hcap
      have htakeF : ((waterfallInserted E now₁ s m₁).1.dedup.filter
          (fun p => !decide (p.2 - now₁ > 60))).take 100 =
          (waterfallInserted E now₁ s m₁).1.dedup.filter
            (fun p => !decide (p.2 - now₁ > 60)) :=
        List.take_of_length_le hlenF
      have hmem₂ : m₂.pid E.H ∈
          (((waterfallInserted E now₁ s m₁).1.dedup.filter
            (fun p => !decide (p.2 - now₁ > 60))).take 100).map Prod.fst := by
        rw [htakeF, ← hid]
        exact List.mem_map.mpr ⟨(m₁.pid E.H, m₁.time), hmemF, rfl⟩
      rw [waterfall, if_pos hmem₂]

/-- Witness for C2 on a concrete socket with one routed peer and a
seeded seen set. -/
theorem waterfall_idempotent_witness :
    ((⟨"q", "A", 2⟩ : PMessage).pid testExt.H =
      (⟨"q", "A", 2⟩ : PMessage).pid testExt.H) ∧
    ((⟨"q", "A", 2⟩ : PMessage).time ≤ 10 + 60) ∧
    ((waterfallInserted testExt 10
        { initialSocket "N" "P" ("h", 1) with
            routing_table := [("B", ⟨0, some "B", none, "", false⟩)],
            waterfalls := [("z", 3)] }
        ⟨"q", "A", 2⟩).1.dedup.length ≤ 100) ∧
    waterfall testExt 10
        (waterfall testExt 10
          { initialSocket "N" "P" ("h", 1) with
              routing_table := [("B", ⟨0, some "B", none, "", false⟩)],
              waterfalls := [("z", 3)] }
          ⟨"q", "A", 2⟩).2.1
        ⟨"q", "A", 2⟩ =
      (false,
       (waterfall testExt 10
          { initialSocket "N" "P" ("h", 1) with
              routing_table := [("B", ⟨0, some "B", none, "", false⟩)],
              waterfalls := [("z", 3)] }
          ⟨"q", "A", 2⟩).2.1, []) := by
  refine ⟨rfl, by decide, by decide, ?_⟩
  exact (waterfall_idempotent testExt 10 10
    { initialSocket "N" "P" ("h", 1) with
        routing_table := [("B", ⟨0, some "B", none, "", false⟩)],
        waterfalls := [("z", 3)] }
    ⟨"q", "A", 2⟩ ⟨"q", "A", 2⟩ rfl (by decide) (by decide)).2

theorem waterfall_len_le (E : Ext) (now : Nat) (s : Socket) (m : PMessage)
    (h : s.waterfalls.length ≤ 100) :
    (waterfall E now s m).2.1.waterfalls.length ≤ 100 := by
  rw [waterfall]
  by_cases hmem : m.pid E.H ∈ s.waterfalls.map Prod.fst
  · rw [if_pos hmem]
    exact h
  · rw [if_neg hmem]
    dsimp only
    rw [List.length_take]
    omega

theorem waterfall_trace_exact_aux (E : Ext) (now : Nat) :
    ∀ (ms : List PMessage) (st : Socket) (done : List String),
      st.routing_table = [] →
      st.waterfalls.Nodup →
      (∀ p ∈ st.waterfalls, p.1 ∈ done) →
      (∀ p ∈ st.waterfalls, p.2 ≤ now + 60) →
      st.waterfalls.length ≤ 100 →
      (done ++ ms.map fun m => m.pid E.H).Nodup →
      (∀ m ∈ ms, m.time ≤ now + 60) →
      (waterfallTrace E now st ms).waterfalls.length =
        min (st.waterfalls.length + ms.length) 100 := by
  intro ms
  induction ms with
  | nil =>
    intro st done _ _ _ _ h5 _ _
    simp only [waterfallTrace, List.foldl_nil, List.length_nil]
    omega
  | cons m rest ih =>
    intro st done h1 h2 h3 h4 h5 h6 h7
    have hfresh : m.pid E.H ∉ st.waterfalls.map Prod.fst := by
      intro hmem
      obtain ⟨p, hp, hpe⟩ := List.mem_map.mp hmem
      have hdone : m.pid E.H ∈ done := hpe ▸ h3 p hp
      have hdisj := (List.nodup_append.mp h6).2.2
      exact hdisj hdone (by simp)
    have hpair : (m.pid E.H, m.time) ∉ st.waterfalls := by
      intro hmem
      exact hfresh (List.mem_map.mpr ⟨(m.pid E.H, m.time), hmem, rfl⟩)
    have hnodup1 : ((m.pid E.H, m.time) :: st.waterfalls).Nodup :=
      List.nodup_cons.mpr ⟨hpair, h2⟩
    have hdedup : ((m.pid E.H, m.time) :: st.waterfalls).dedup =
        (m.pid E.H, m.time) :: st.waterfalls :=
      List.dedup_eq_self.mpr hnodup1
    have hfilter : ((m.pid E.H, m.time) :: st.waterfalls).filter
        (fun p => !decide (p.2 - now > 60)) =
        (m.pid E.H, m.time) :: st.waterfalls := by
      apply List.filter_eq_self.mpr
      intro p hp
      cases hp with
      | head =>
        have : ¬ (m.time - now > 60) := by
          have := h7 m (List.mem_cons_self m rest)
          omega
        simpa using this
      | tail _ hp' =>
        have : ¬ (p.2 - now > 60) := by
          have := h4 p hp'
          omega
        simpa using this
    have hstep : waterfall E now st m =
        (true, { st with waterfalls :=
          ((m.pid E.H, m.time) :: st.waterfalls).take 100 }, []) := by
      rw [waterfall, if_neg hfresh, waterfallInserted, h1]
      rw [List.foldl_nil]
      dsimp only
      rw [hdedup, hfilter]
    have htrace : waterfallTrace E now st (m :: rest) =
        waterfallTrace E now
          { st with waterfalls := ((m.pid E.H, m.time) :: st.waterfalls).take 100 }
          rest := by
      simp only [waterfallTrace, List.foldl_cons]
      rw [hstep]
    rw [htrace]
    have hsub : (((m.pid E.H, m.time) :: st.waterfalls).take 100).Sublist
        ((m.pid E.H, m.time) :: st.waterfalls) := List.take_sublist 100 _
    have ihres := ih
      { st with waterfalls := ((m.pid E.H, m.time) :: st.waterfalls).take 100 }
      (done ++ [m.pid E.H])
      h1
      (hnodup1.sublist hsub)
      (by
        intro p hp
        have hp' := hsub.mem hp
        cases hp' with
        | head => simp
        | tail _ hp'' =>
          have := h3 p hp''
          simp [this])
      (by
        intro p hp
        have hp' := hsub.mem hp
        cases hp' with
        | head => exact h7 m (List.mem_cons_self m rest)
        | tail _ hp'' => exact h4 p hp'')
      (by rw [List.length_take]; omega)
      (by
        have h6' := h6
        rw [List.map_cons, List.append_cons] at h6'
        exact h6')
      (fun m' hm' => h7 m' (List.mem_cons_of_mem m hm'))
    rw [ihres]
    simp only [List.length_take, List.length_cons]
    omega

/-- C4.  The seen set never exceeds 100 entries at an observable
boundary: starting from any state within the cap, after any stream of
received broadcasts is pushed through `waterfall` the seen set holds at
most 100 pairs; and for distinct fresh broadcasts with sane timestamps on
a leaf node (empty routing table, empty seen set) the size is exactly
`min n 100` — e.g. 150 distinct broadcasts leave exactly 100 entries. -/
theorem waterfall_seen_set_cap (E : Ext) (now : Nat) (s : Socket)
    (ms : List PMessage) (hstart : s.waterfalls.length ≤ 100) :
    (waterfallTrace E now s ms).waterfalls.length ≤ 100 ∧
    (s.routing_table = [] → s.waterfalls = [] →
      (ms.map fun m => m.pid E.H).Nodup →
      (∀ m ∈ ms, m.time ≤ now + 60) →
      (waterfallTrace E now s ms).waterfalls.length = min ms.length 100) := by
  constructor
  · induction ms generalizing s with
    | nil => simpa [waterfallTrace] using hstart
    | cons m rest ih =>
      have h1 := waterfall_len_le E now s m hstart
      simpa only [waterfallTrace, List.foldl_cons] using
        ih (waterfall E now s m).2.1 h1
  · intro hrt hw hnodup htimes
    have := waterfall_trace_exact_aux E now ms s [] hrt
      (by rw [hw]; exact List.nodup_nil)
      (by rw [hw]; intro p hp; cases hp)
      (by rw [hw]; intro p hp; cases hp)
      (by rw [hw]; simp)
      (by simpa using hnodup)
      htimes
    rw [this, hw]
    simp

/-- Witness for C4: two distinct broadcasts on a fresh leaf socket leave
exactly two seen-set entries, within the cap. -/
theorem waterfall_seen_set_cap_witness :
    ((initialSocket "N" "P" ("h", 1)).waterfalls.length ≤ 100) ∧
    ((initialSocket "N" "P" ("h", 1)).routing_table = []) ∧
    ((initialSocket "N" "P" ("h", 1)).waterfalls = []) ∧
    (([⟨"a", "", 0⟩, ⟨"bb", "", 0⟩] : List PMessage).map
      fun m => m.pid testExt.H).Nodup ∧
    (∀ m ∈ ([⟨"a", "", 0⟩, ⟨"bb", "", 0⟩] : List PMessage), m.time ≤ 0 + 60) ∧
    (waterfallTrace testExt 0 (initialSocket "N" "P" ("h", 1))
      [⟨"a", "", 0⟩, ⟨"bb", "", 0⟩]).waterfalls.length ≤ 100 ∧
    (waterfallTrace testExt 0 (initialSocket "N" "P" ("h", 1))
      [⟨"a", "", 0⟩, ⟨"bb", "", 0⟩]).waterfalls.length = min 2 100 := by
  refine ⟨by decide, rfl, rfl, by decide, by decide, ?_, ?_⟩
  · exact (waterfall_seen_set_cap testExt 0 (initialSocket "N" "P" ("h", 1))
      [⟨"a", "", 0⟩, ⟨"bb", "", 0⟩] (by decide)).1
  · exact (waterfall_seen_set_cap testExt 0 (initialSocket "N" "P" ("h", 1))
      [⟨"a", "", 0⟩, ⟨"bb", "", 0⟩] (by decide)).2 rfl rfl (by decide) (by decide)

/-- C7 (corrected).  The `max_outgoing` bound is enforced only inside the
peers handler: when a peers list arrives while the outgoing set already
holds `max_outgoing` or more ids, no connection is initiated and the
socket is unchanged.  (The bound itself is not an invariant of the
socket: see `outgoing_exceeds_cap`.) -/
theorem peers_connect_guard (E : Ext) (now : Nat) (s : Socket) (m : PMessage)
    (c : Conn)
    (hp : m.parse.getD 0 "" = "peers")
    (hfull : max_outgoing ≤ s.outgoing.length) :
    handleRequest E now s m c = (s, []) := by
  rw [handleRequest]
  dsimp only
  rw [hp]
  rw [if_neg (by decide : ¬("peers" = "handshake"))]
  rw [if_pos rfl]
  generalize E.loadsPeers (m.parse.getD 1 "") = l
  induction l with
  | nil => rfl
  | cons pr rest ih =>
    rw [List.foldl_cons]
    rw [if_neg fun hand => absurd hand.1 (Nat.not_lt.mpr hfull)]
    exact ih

/-- Witness for C7's guard: a full outgoing set (8 ids) makes the peers
handler a no-op even though the payload decodes to a connectable peer. -/
theorem peers_connect_guard_witness :
    ((⟨"peers" ++ sep_sequence ++ "x", "Q", 1⟩ : PMessage).parse.getD 0 "" =
      "peers") ∧
    (max_outgoing ≤
      ({ initialSocket "S" "P" ("h", 1) with
          outgoing := ["1", "2", "3", "4", "5", "6", "7", "8"] } :
        Socket).outgoing.length) ∧
    handleRequest testExtPeers 1
        { initialSocket "S" "P" ("h", 1) with
            outgoing := ["1", "2", "3", "4", "5", "6", "7", "8"] }
        ⟨"peers" ++ sep_sequence ++ "x", "Q", 1⟩ ⟨0, none, none, "", false⟩ =
      ({ initialSocket "S" "P" ("h", 1) with
          outgoing := ["1", "2", "3", "4", "5", "6", "7", "8"] }, []) := by
  refine ⟨by decide, by decide, ?_⟩
  exact peers_connect_guard testExtPeers 1
    { initialSocket "S" "P" ("h", 1) with
        outgoing := ["1", "2", "3", "4", "5", "6", "7", "8"] }
    ⟨"peers" ++ sep_sequence ++ "x", "Q", 1⟩ ⟨0, none, none, "", false⟩
    (by decide) (by decide)

/-- Counterexample for C7 as stated: the cap `|outgoing| ≤ max_outgoing`
is not an invariant of the socket's operations.  Nine direct `connect`
calls followed by their nine handshake receipts — each a legitimate
operation — leave nine ids in the outgoing set, exceeding
`max_outgoing = 8`; neither `connect` nor the handshake branch checks the
bound. -/
theorem outgoing_exceeds_cap :
    (runOps testExt 0 (initialSocket "S" "P" ("h", 1))
      (((List.range 9).map fun j =>
          Op.connectOp ("a" ++ toString j) (10 + j) (some ("id" ++ toString j))) ++
       ((List.range 9).map fun j =>
          Op.deliver
            ⟨String.intercalate sep_sequence
              ["handshake", "id" ++ toString j, "P", "aj", "[]"], "", 0⟩
            j))).outgoing.length = 9 ∧
    max_outgoing = 8 := by
  decide

/-- Counterexample for C2 as stated: because the eviction test
`t - getUTC() > 60` removes entries timestamped more than 60 seconds in
the future, a message dated `now + 110` is dropped from the seen set by
the very call that inserted it, and a second call with the same id
rebroadcasts again — two rebroadcasts for one id. -/
theorem waterfall_rebroadcasts_twice :
    let s : Socket := { initialSocket "R" "P" ("h", 1) with
        routing_table := [("B", ⟨0, some "B", none, "", false⟩)] }
    let m : PMessage := ⟨"broadcast" ++ sep_sequence ++ "hi", "A", 120⟩
    (waterfall testExt 10 s m).1 = true ∧
    (waterfall testExt 10 s m).2.2.length = 1 ∧
    (waterfall testExt 10 (waterfall testExt 10 s m).2.1 m).1 = true ∧
    (waterfall testExt 10 (waterfall testExt 10 s m).2.1 m).2.2.length = 1 := by
  decide

end P2P
